import Mathlib

/-!
Verification model of `payload/darksite/apply.py` (kubedos/kubedos).

The Python script is a one-shot convergence orchestrator.  This file gives a
shallow embedding of the pieces the claims are about: the string helpers used
by the WireGuard config renderer, `read_iface_block`, `prune_backups`,
`write_if_changed`, `render_plane_conf_from_seed`, `ensure_wg_keys_local`,
`salt_ping_wait`, the hub-only phase of `main`, `run_stream`, and
`_extract_json_object`.

Modelling conventions:
  * file contents are `String`s; a missing file is `Option.none`;
  * Python dicts (seed nodes, salt outputs) are association lists
    `List (String × _)` in insertion order; `dict.get` is exact-key lookup;
  * external effects (`hostname -f`, `wg genkey`, salt responses, the clock)
    are passed in explicitly as parameters;
  * `str.splitlines` is modelled for texts whose line breaks are `\n`,
    `\r\n` or `\r` (the exotic Unicode line breaks are not modelled);
  * errors raised by the Python code become `Except.error`.
-/

/-- Lowercase an ASCII letter, the identity elsewhere; models `str.lower()`
on the ASCII hostnames and keys this script handles. -/
def asciiLower (c : Char) : Char :=
  if 'A' ≤ c ∧ c ≤ 'Z' then Char.ofNat (c.toNat + 32) else c

/-- Model of Python `str.lower()`. -/
def pyLower (s : String) : String :=
  String.mk (s.data.map asciiLower)

/-- Model of Python `str.startswith(pre)`. -/
def pyStartsWith (s pre : String) : Bool :=
  pre.data.isPrefixOf s.data

/-- Drop trailing whitespace from a character list. -/
def rstripChars (cs : List Char) : List Char :=
  (cs.reverse.dropWhile Char.isWhitespace).reverse

/-- Model of Python `str.rstrip()`. -/
def pyRstrip (s : String) : String :=
  String.mk (rstripChars s.data)

/-- Model of Python `str.strip()`. -/
def pyStrip (s : String) : String :=
  String.mk (rstripChars (s.data.dropWhile Char.isWhitespace))

/-- Collapse each `\r\n` pair into `\n`, so the Windows line break counts
as a single break, as in Python `str.splitlines()`. -/
def normalizeCRLF : List Char → List Char
  | [] => []
  | [c] => [c]
  | c1 :: c2 :: rest =>
    if c1 = '\r' ∧ c2 = '\n' then '\n' :: normalizeCRLF rest
    else c1 :: normalizeCRLF (c2 :: rest)

/-- Split a normalized character list at line breaks (`\n` or a lone `\r`),
accumulating the current (reversed) line in `acc`; a trailing break yields
no empty final line, exactly as in Python `str.splitlines()`. -/
def splitNlAux (acc : List Char) : List Char → List (List Char)
  | [] => if acc.isEmpty then [] else [acc.reverse]
  | c :: rest =>
    if c = '\n' ∨ c = '\r' then acc.reverse :: splitNlAux [] rest
    else splitNlAux (c :: acc) rest

/-- Model of Python `str.splitlines()`. -/
def pySplitlines (s : String) : List String :=
  (splitNlAux [] (normalizeCRLF s.data)).map String.mk

/-- Model of Python `"\n".join(lines)`. -/
def joinNl : List String → String
  | [] => ""
  | [l] => l
  | l :: ls => l ++ "\n" ++ joinNl ls

/-- Code-point lexicographic comparison of character lists, as Python uses
when sorting strings. -/
def charListLe : List Char → List Char → Bool
  | [], _ => true
  | _ :: _, [] => false
  | a :: as, b :: bs => if a = b then charListLe as bs else decide (a < b)

/-- Python `s <= t` on strings. -/
def pyStrLe (a b : String) : Bool :=
  charListLe a.data b.data

/-- Insert into a sorted list, before the first element not below `x`;
together with `pySorted` this is a stable sort, like Python `sorted`. -/
def insertLe {α : Type} (le : α → α → Bool) (x : α) : List α → List α
  | [] => [x]
  | y :: ys => if le x y then x :: y :: ys else y :: insertLe le x ys

/-- Model of Python `sorted(l, key=...)` via a stable insertion sort. -/
def pySorted {α : Type} (le : α → α → Bool) (l : List α) : List α :=
  l.foldr (insertLe le) []

/-- Exact-key lookup in an insertion-ordered association list; models
Python `dict.get(k)`. -/
def alookup {α : Type} (l : List (String × α)) (k : String) : Option α :=
  (l.find? (fun p => p.1 == k)).map (fun p => p.2)

/-- Models Python `d[k] = v` on an insertion-ordered dict: replace in place
if the key exists, else append. -/
def assocSet (l : List (String × String)) (k v : String) : List (String × String) :=
  if l.any (fun p => p.1 == k) then
    l.map (fun p => if p.1 == k then (k, v) else p)
  else l ++ [(k, v)]

/-- One seed `planes` entry: `{cidr: ..., port: ...}`; a missing JSON key
is `none`. -/
structure PlaneCfg where
  cidr : Option String
  port : Option Int
deriving DecidableEq

/-- The seed document: `nodes` maps hostname to a dict of per-plane IPs plus
the `endpoint` key; `planes` maps plane id to its parameters. -/
structure Seed where
  nodes : List (String × List (String × String))
  planes : List (String × PlaneCfg)
deriving DecidableEq

/-- The external state one call of `render_plane_conf_from_seed` observes:
the `hostname -f` and `hostname -s` outputs, the salt `cmd.run` response of
the one pubkey fetch the call makes, the local `{iface}.pub` file, and the
existing `{iface}.conf` file. -/
structure RenderEnv where
  hostnameF : String
  hostnameS : String
  meshPubkeys : List (String × String)
  localPub : Option String
  confContent : Option String
deriving DecidableEq

/-- `hostname_fqdn()`: `hostname -f` output, falling back to `hostname -s`
when the former is empty. -/
def hostname_fqdn (env : RenderEnv) : String :=
  if env.hostnameF == "" then env.hostnameS else env.hostnameF

/-- `is_master()`: the lowercased `hostname -f` starts with `master.` or
equals `master`. -/
def is_master (env : RenderEnv) : Bool :=
  pyStartsWith (pyLower env.hostnameF) "master." || (pyLower env.hostnameF == "master")

/-- A line whose stripped form starts with `[Peer]` — the peer-section
marker the renderer scans for. -/
def isMarker (l : String) : Bool :=
  pyStartsWith (pyStrip l) "[Peer]"

/-- `read_iface_block`: the lines of the config preceding the first
peer-section marker line. -/
def read_iface_block (content : String) : List String :=
  (pySplitlines content).takeWhile (fun l => !(isMarker l))

/-- The final composition step of the renderer:
`"\n".join(iface_lines + [""] + peer_lines).rstrip() + "\n"`. -/
def composeDesired (ifaceLines peerLines : List String) : String :=
  pyRstrip (joinNl (ifaceLines ++ [""] ++ peerLines)) ++ "\n"

/-- The hub branch peer-stanza loop: for each seed node (sorted by name)
that has an IP on this plane, is not this node, and has a resolvable public
key, emit a six-line stanza; nodes without a key are skipped silently. -/
def hubPeerLines (iface myIp : String) (pubkeys : List (String × String))
    (nodesSorted : List (String × List (String × String))) : List String :=
  nodesSorted.foldl (fun acc nn =>
    match alookup nn.2 iface with
    | none => acc
    | some ip =>
      if ip == "" || ip == myIp then acc
      else
        let pk := pyStrip ((alookup pubkeys nn.1).getD "")
        if pk == "" then acc
        else acc ++ ["[Peer]", "# " ++ nn.1 ++ " (" ++ iface ++ ")",
          "PublicKey = " ++ pk, "AllowedIPs = " ++ ip ++ "/32",
          "PersistentKeepalive = 25", ""]) []

/-- The spoke branch scan of the salt response: the first non-empty stripped
value, or the empty string. -/
def firstNonEmptyPk : List (String × String) → String
  | [] => ""
  | (_, v) :: rest =>
    let m := pyStrip v
    if m == "" then firstNonEmptyPk rest else m

/-- The spoke branch single peer stanza for the hub. -/
def spokePeerLines (iface masterName masterPk cidr endpoint : String)
    (port : Int) : List String :=
  ["[Peer]", "# " ++ masterName ++ " (" ++ iface ++ ")",
   "PublicKey = " ++ masterPk, "AllowedIPs = " ++ cidr,
   "Endpoint = " ++ endpoint ++ ":" ++ toString port,
   "PersistentKeepalive = 25", ""]

/-- Hostname normalisation of `render_plane_conf_from_seed`: exact
case-insensitive membership, else short-hostname fallback
(`kl.startswith(short + ".") or kl == short`). -/
def resolveHostname (nodes : List (String × List (String × String)))
    (env : RenderEnv) : Except String String :=
  let hn := pyLower (hostname_fqdn env)
  if nodes.any (fun k => pyLower k.1 == hn) then .ok hn
  else
    let short := pyLower env.hostnameS
    match nodes.find? (fun k =>
        pyStartsWith (pyLower k.1) (short ++ ".") || (pyLower k.1 == short)) with
    | some k => .ok (pyLower k.1)
    | none => .error ("this node (" ++ hn ++ ") not found in seed nodes")

/-- `render_plane_conf_from_seed(seed, iface)`: returns the desired config
text and the `changed` flag of `write_if_changed`; `Except.error` models the
`RuntimeError`s (and `KeyError`s) the Python function can raise. -/
def render_plane_conf_from_seed (seed : Seed) (iface : String)
    (env : RenderEnv) : Except String (String × Bool) := do
  let content ← match env.confContent with
    | none => .error ("missing /etc/wireguard/" ++ iface ++ ".conf (base interface config must exist)")
    | some c => pure c
  let iface_lines := read_iface_block content
  let nodes := seed.nodes
  let hn ← resolveHostname nodes env
  let canon ← match nodes.find? (fun k => pyLower k.1 == hn) with
    | some kv => pure kv
    | none => .error ("this node (" ++ hn ++ ") not found in seed nodes (canonical lookup failed)")
  let myIp ← match alookup canon.2 iface with
    | none => .error ("seed missing " ++ iface ++ " ip for " ++ canon.1)
    | some ip => if ip == "" then .error ("seed missing " ++ iface ++ " ip for " ++ canon.1) else pure ip
  let peerLines ← if is_master env then
      let pubkeys0 := env.meshPubkeys
      let pubkeys := match env.localPub with
        | some t => assocSet pubkeys0 (hostname_fqdn env) (pyStrip t)
        | none => pubkeys0
      pure (hubPeerLines iface myIp pubkeys
        (pySorted (fun a b => pyStrLe a.1 b.1) nodes))
    else do
      let mkv ← match nodes.find? (fun k => pyStartsWith (pyLower k.1) "master.") with
        | some kv => pure kv
        | none => .error "seed has no master.* entry"
      let masterPk := firstNonEmptyPk env.meshPubkeys
      if masterPk == "" then
        .error ("could not obtain master " ++ iface ++ " pubkey via salt")
      else do
        let cidr ← match (alookup seed.planes iface).bind (fun pc => pc.cidr) with
          | none => .error ("seed missing planes." ++ iface ++ ".cidr")
          | some c => if c == "" then .error ("seed missing planes." ++ iface ++ ".cidr") else pure c
        let endpoint ← match alookup mkv.2 "endpoint" with
          | none => .error "KeyError: endpoint"
          | some e => pure e
        let port ← match alookup seed.planes iface with
          | none => .error "KeyError: planes"
          | some pc => match pc.port with
            | none => .error "KeyError: port"
            | some p => pure p
        pure (spokePeerLines iface mkv.1 masterPk cidr endpoint port)
  let desired_text := composeDesired iface_lines peerLines
  pure (desired_text, !(content == desired_text))

/-- Split a character list after each `\n`, keeping the terminators, so that
flattening the pieces restores the original text. -/
def splitKeepAux (acc : List Char) : List Char → List (List Char)
  | [] => if acc.isEmpty then [] else [acc.reverse]
  | c :: rest =>
    if c = '\n' then ('\n' :: acc).reverse :: splitKeepAux [] rest
    else splitKeepAux (c :: acc) rest

/-- The bytes of a file preceding its first peer-section marker line (the
whole file when no line is a marker) — the claim's notion of the interface
section of a config file. -/
def bytesBeforeMarker (s : String) : String :=
  String.mk (((splitKeepAux [] s.data).takeWhile
    (fun l => !(isMarker (String.mk l)))).flatten)

/-- How many peer stanzas a rendered config contains: the number of
peer-section marker lines. -/
def peerStanzaCount (s : String) : Nat :=
  ((pySplitlines s).filter isMarker).length

/-- The spec scenario seed: `master.local` with `wg1` IP `10.78.0.1` and
endpoint `1.2.3.4`, `node1.local` with `wg1` IP `10.78.0.2`, plane `wg1`
with CIDR `10.78.0.0/24` and port `51820`. -/
def scenarioSeed : Seed :=
  { nodes := [("master.local", [("wg1", "10.78.0.1"), ("endpoint", "1.2.3.4")]),
              ("node1.local", [("wg1", "10.78.0.2")])],
    planes := [("wg1", { cidr := some "10.78.0.0/24", port := some 51820 })] }

/-- Rendering environment on `node1.local` (a spoke): the mesh fetch
resolved the hub key `MPUB`, and the base interface config exists. -/
def spokeEnv : RenderEnv :=
  { hostnameF := "node1.local", hostnameS := "node1",
    meshPubkeys := [("master.local", "MPUB\n")],
    localPub := some "NPUB\n",
    confContent := some "[Interface]\nAddress = 10.78.0.2/24\n" }

/-- The text the spoke render produces in that scenario. -/
def spokeRendered : String :=
  "[Interface]\nAddress = 10.78.0.2/24\n\n[Peer]\n# master.local (wg1)\nPublicKey = MPUB\nAllowedIPs = 10.78.0.0/24\nEndpoint = 1.2.3.4:51820\nPersistentKeepalive = 25\n"

/-- The text a second spoke render produces when the file already holds
`spokeRendered`: note the extra blank line before the peer marker. -/
def spokeRendered2 : String :=
  "[Interface]\nAddress = 10.78.0.2/24\n\n\n[Peer]\n# master.local (wg1)\nPublicKey = MPUB\nAllowedIPs = 10.78.0.0/24\nEndpoint = 1.2.3.4:51820\nPersistentKeepalive = 25\n"

/-- The hub scenario seed: `master.local` plus two spokes on plane `wg1`. -/
def hubSeed : Seed :=
  { nodes := [("master.local", [("wg1", "10.78.0.1"), ("endpoint", "1.2.3.4")]),
              ("node1.local", [("wg1", "10.78.0.2")]),
              ("node2.local", [("wg1", "10.78.0.3")])],
    planes := [("wg1", { cidr := some "10.78.0.0/24", port := some 51820 })] }

/-- Rendering environment on `master.local` (the hub): the mesh fetch
resolved only `node1.local`'s key; `node2.local`'s key is missing. -/
def hubEnv : RenderEnv :=
  { hostnameF := "master.local", hostnameS := "master",
    meshPubkeys := [("node1.local", "SPUB1\n")],
    localPub := some "MPUB\n",
    confContent := some "[Interface]\nAddress = 10.78.0.1/24\nListenPort = 51820\n" }

/-- The text the hub render produces in that scenario: one stanza, for
`node1.local` only. -/
def hubRendered : String :=
  "[Interface]\nAddress = 10.78.0.1/24\nListenPort = 51820\n\n[Peer]\n# node1.local (wg1)\nPublicKey = SPUB1\nAllowedIPs = 10.78.0.2/32\nPersistentKeepalive = 25\n"

/-- A pre-existing config whose interface section is NOT followed by a blank
line before the first peer marker. -/
def c2conf : String := "[Interface]\nAddress = 10.78.0.2/24\n[Peer]\nPublicKey = OLD\n"

/-- The state of one plane's config file and its timestamped backup chain;
backups are identified by their (numeric) timestamps, listed in the sorted
order `prune_backups` reads them back from the filesystem glob. -/
structure FsState where
  content : Option String
  backups : List Nat
deriving DecidableEq

/-- `prune_backups`: with a positive retention cap, sort the backups and
delete the oldest until at most `keep - 1` remain (making room for the
backup about to be written); a cap of zero or less disables pruning. -/
def prune_backups (keep : Int) (backups : List Nat) : List Nat :=
  if keep ≤ 0 then backups
  else
    let sortedB := pySorted (fun a b => decide (a ≤ b)) backups
    let excess : Int := (sortedB.length : Int) - (keep - 1)
    if 0 < excess then sortedB.drop excess.toNat else sortedB

/-- Write the timestamped backup copy; an existing backup of the same
timestamp is overwritten in place. -/
def addBackup (ts : Nat) (l : List Nat) : List Nat :=
  if ts ∈ l then l else l ++ [ts]

/-- `write_if_changed`: compare the current file content against the
desired text; when identical report `false` and leave everything alone;
otherwise prune the backups, back up the existing file under the current
timestamp, atomically replace the content, and report `true`. -/
def write_if_changed (keep : Int) (ts : Nat) (desired : String)
    (st : FsState) : Bool × FsState :=
  if st.content.getD "" == desired then (false, st)
  else
    let st1 := if st.content.isSome && decide (0 < keep) then
        { st with backups := addBackup ts (prune_backups keep st.backups) }
      else st
    (true, { st1 with content := some desired })

/-- A sequence of renders of the same plane config: each step writes its
desired text through `write_if_changed` at its timestamp. -/
def applyRenders (keep : Int) : FsState → List (Nat × String) → FsState
  | st, [] => st
  | st, (ts, d) :: rest => applyRenders keep (write_if_changed keep ts d st).2 rest

/-- Every render in the sequence changes the file content: each desired
text differs from the content it overwrites. -/
def contentsChange : String → List (Nat × String) → Bool
  | _, [] => true
  | c, w :: rest => !(c == w.2) && contentsChange w.2 rest

/-- The plane's key files: `{iface}.key` and `{iface}.pub` contents, or
`none` when the file does not exist. -/
structure WgKeyState where
  key : Option String
  pub : Option String
deriving DecidableEq

/-- `ensure_wg_keys_local`: return untouched when both key files exist;
otherwise generate a fresh keypair (the `wg genkey`/`wg pubkey` outputs are
the `genPriv`/`genPub` parameters) and write both files. -/
def ensure_wg_keys_local (genPriv genPub : String) (st : WgKeyState) : WgKeyState :=
  if st.key.isSome && st.pub.isSome then st
  else { key := some (genPriv ++ "\n"), pub := some (genPub ++ "\n") }

/-- `up = [k for k, v in data.items() if v is True]` of `salt_ping_wait`. -/
def pollUp (d : List (String × Bool)) : List String :=
  (d.filter (fun p => p.2)).map (fun p => p.1)

/-- One liveness poll: the `salt test.ping` return code paired with the
parsed JSON object (`none` when no well-formed object was extracted).  The
poll is accepted when the return code is zero, a dict was parsed, and the
responder count satisfies the policy: at least `expected` responders under
require-all, at least one otherwise. -/
def pollSatisfies (requireAll : Bool) (expected : Nat)
    (p : Int × Option (List (String × Bool))) : Bool :=
  p.1 == 0 &&
    (match p.2 with
     | some d => if requireAll then decide (expected ≤ (pollUp d).length)
                 else !(pollUp d).isEmpty
     | none => false)

/-- `salt_ping_wait`: run through the bounded sequence of poll outcomes
(one per retry); return at the first accepted poll, raise after exhausting
all retries. -/
def salt_ping_wait (requireAll : Bool) (expected : Nat) :
    List (Int × Option (List (String × Bool))) → Except String Unit
  | [] => .error "salt minions did not respond in time"
  | p :: rest =>
    if pollSatisfies requireAll expected p then .ok ()
    else salt_ping_wait requireAll expected rest

/-- The body of the hub-only `try` block in `main`: trust bootstrap
(ansible user + key push + artifact perms), the reachability gate, and the
ansible run, in sequence; the first exception aborts the rest. -/
def hubPhaseBody (bootstrap reach engine : Except String Unit) : Except String Unit :=
  bootstrap.bind (fun _ => reach.bind (fun _ => engine))

/-- The `if is_master(): try ... except` section of `main`: a failure
anywhere in the hub phase is caught as one unit and logged, then re-raised
only when `KUBEOS_ANSIBLE_STRICT` is set. -/
def mainHubSection (strict isM : Bool)
    (bootstrap reach engine : Except String Unit) : Except String Unit :=
  if isM then
    match hubPhaseBody bootstrap reach engine with
    | .ok _ => .ok ()
    | .error e => if strict then .error e else .ok ()
  else .ok ()

/-- `main` after the post-boot pause, with the outcome of each earlier
phase passed in: seed load, minion wait, and the render loop propagate
their errors; the hub section is guarded as above; the trailing mine
refresh is best-effort and cannot fail. -/
def mainModel (strict isM : Bool)
    (seedLoad saltWait renders bootstrap reach engine : Except String Unit) :
    Except String Unit :=
  seedLoad.bind (fun _ => saltWait.bind (fun _ => renders.bind (fun _ =>
    mainHubSection strict isM bootstrap reach engine)))

/-- A subprocess as `run_stream` observes it: the stdout lines with the
elapsed seconds at which each is read, the `wait()` return code, and the
time at which the process exits. -/
structure Proc where
  outLines : List (Nat × String)
  exitCode : Int
  exitTime : Nat
deriving DecidableEq

/-- Python truthiness of the `timeout` argument: `None` and `0` disable the
timeout check. -/
def timeoutTruthy : Option Nat → Bool
  | none => false
  | some n => !(n == 0)

/-- The streaming loop of `run_stream`: after writing each line, if a
timeout is set and the elapsed time exceeds it, kill the process and return
124; at end of output return the process return code. -/
def runStreamLoop (timeout : Option Nat) (exitCode : Int) :
    List (Nat × String) → Int
  | [] => exitCode
  | (t, _) :: rest =>
    if timeoutTruthy timeout && decide (timeout.getD 0 < t) then 124
    else runStreamLoop timeout exitCode rest

/-- `run_stream(cmd, timeout=...)` modelled over the observed subprocess. -/
def run_stream (timeout : Option Nat) (p : Proc) : Int :=
  runStreamLoop timeout p.exitCode p.outLines

/-- A subprocess that prints nothing and runs for 100 seconds before
exiting 0. -/
def silentProc : Proc :=
  { outLines := [], exitCode := 0, exitTime := 100 }

/-- A subprocess that prints lines at 2s and 9s and exits 0 at 12s. -/
def chattyProc : Proc :=
  { outLines := [(2, "a"), (9, "b")], exitCode := 0, exitTime := 12 }

/-- A subprocess that prints one line at 2s and exits 7 at 12s. -/
def quietProc : Proc :=
  { outLines := [(2, "a")], exitCode := 7, exitTime := 12 }

/-- Python `text.find(c)`: index of the first occurrence, `-1` if absent. -/
def pyFind (s : String) (c : Char) : Int :=
  match s.data.findIdx? (fun x => x == c) with
  | some i => (i : Int)
  | none => -1

/-- Python `text.rfind(c)`: index of the last occurrence, `-1` if absent. -/
def pyRfind (s : String) (c : Char) : Int :=
  match s.data.reverse.findIdx? (fun x => x == c) with
  | some i => ((s.data.length - 1 - i : Nat) : Int)
  | none => -1

/-- Python slice `text[a:b]` for `0 ≤ a ≤ b`. -/
def pySlice (s : String) (a b : Nat) : String :=
  String.mk ((s.data.drop a).take (b - a))

/-- `_extract_json_object(text)`: `None` on the empty string; locate the
first `{` and the last `}` and give up when either is missing or they are
not well-ordered; otherwise parse the spanned substring, where the JSON
parser is the `loads` parameter and `none` models both a `json.loads`
failure (the `except` arm) and any non-parse; the function itself is total
and raises nothing. -/
def extract_json_object {α : Type} (loads : String → Option α) (text : String) :
    Option α :=
  if text == "" then none
  else
    let s := pyFind text '{'
    let e := pyRfind text '}'
    if s == -1 || e == -1 || e ≤ s then none
    else loads (pySlice text s.toNat (e.toNat + 1))

/-- Index of the first opening brace of `text`, when one exists. -/
def firstBraceIdx (text : String) : Option Nat :=
  text.data.findIdx? (fun x => x == '{')

/-- Index of the last closing brace of `text`, when one exists. -/
def lastBraceIdx (text : String) : Option Nat :=
  (text.data.reverse.findIdx? (fun x => x == '}')).map
    (fun i => text.data.length - 1 - i)

/-- The claim's description of `_extract_json_object`, stated from the spec
words: the JSON object parsed from the substring spanning the first `{` to
the last `}` when both exist in that order, `none` otherwise (which also
covers the empty string) or when the substring fails to parse. -/
def extract_json_object_spec {α : Type} (loads : String → Option α)
    (text : String) : Option α :=
  match firstBraceIdx text, lastBraceIdx text with
  | some s, some e => if s < e then loads (pySlice text s (e + 1)) else none
  | _, _ => none

/-- C5: rendering on `node1.local` from the scenario seed with fetched hub
key `MPUB` yields exactly one peer stanza — the hub's — with
`PublicKey = MPUB`, `AllowedIPs = 10.78.0.0/24` (the whole plane CIDR) and
`Endpoint = 1.2.3.4:51820` (seed endpoint plus plane port). -/
theorem spoke_render_scenario :
    render_plane_conf_from_seed scenarioSeed "wg1" spokeEnv = .ok (spokeRendered, true)
    ∧ peerStanzaCount spokeRendered = 1
    ∧ (pySplitlines spokeRendered).contains "PublicKey = MPUB" = true
    ∧ (pySplitlines spokeRendered).contains "AllowedIPs = 10.78.0.0/24" = true
    ∧ (pySplitlines spokeRendered).contains "Endpoint = 1.2.3.4:51820" = true :=
  ⟨rfl, rfl, rfl, rfl, rfl⟩

/-- C4: on the hub with two spokes of which only `node1.local` has a
resolvable key, the render succeeds and emits exactly one peer stanza, for
`node1.local`; `node2.local` is silently omitted. -/
theorem hub_render_partial_key :
    render_plane_conf_from_seed hubSeed "wg1" hubEnv = .ok (hubRendered, true)
    ∧ peerStanzaCount hubRendered = 1
    ∧ (pySplitlines hubRendered).contains "# node1.local (wg1)" = true
    ∧ (pySplitlines hubRendered).contains "PublicKey = SPUB1" = true
    ∧ (pySplitlines hubRendered).contains "# node2.local (wg1)" = false :=
  ⟨rfl, rfl, rfl, rfl, rfl⟩

/-- C1: rendering twice from identical seed and mesh-reported keys is NOT
idempotent.  The first spoke render writes `spokeRendered`; the second call,
over the very file the first call wrote and with unchanged inputs, reports
`changed = true` again and produces a different file (one more blank line
before the peer marker): `read_iface_block` keeps the blank separator line
as part of the interface block and the renderer appends another. -/
theorem render_twice_not_idempotent :
    render_plane_conf_from_seed scenarioSeed "wg1" spokeEnv = .ok (spokeRendered, true)
    ∧ render_plane_conf_from_seed scenarioSeed "wg1"
        { spokeEnv with confContent := some spokeRendered } = .ok (spokeRendered2, true)
    ∧ spokeRendered2 ≠ spokeRendered :=
  ⟨rfl, rfl, by decide⟩

/-- C2 counterexample: the interface section (bytes before the first peer
marker line) is NOT preserved byte-for-byte: rendering over `c2conf` yields
a file whose pre-marker bytes carry one extra blank line. -/
theorem header_bytes_not_preserved :
    render_plane_conf_from_seed scenarioSeed "wg1"
      { spokeEnv with confContent := some c2conf } = .ok (spokeRendered, true)
    ∧ bytesBeforeMarker spokeRendered ≠ bytesBeforeMarker c2conf
    ∧ bytesBeforeMarker spokeRendered = bytesBeforeMarker c2conf ++ "\n" :=
  ⟨rfl, by decide, rfl⟩

/-- C6 counterexample: a private key file that exists before the call is
overwritten when the companion `.pub` file is missing — the guard is
`key.exists() and pub.exists()`, so an incomplete pair is regenerated
wholesale, private key included. -/
theorem wg_private_key_overwritten :
    (⟨some "OLD\n", none⟩ : WgKeyState).key = some "OLD\n"
    ∧ (ensure_wg_keys_local "NEW" "NEWPUB" ⟨some "OLD\n", none⟩).key ≠ some "OLD\n" :=
  ⟨rfl, by decide⟩

/-- C6 amended: whenever BOTH the private and the public key file exist
before the call, `ensure_wg_keys_local` changes nothing; generation happens
only when at least one of the two is missing. -/
theorem wg_keys_untouched_when_both_exist (genPriv genPub : String)
    (st : WgKeyState) (hk : st.key.isSome = true) (hp : st.pub.isSome = true) :
    ensure_wg_keys_local genPriv genPub st = st := by
  simp [ensure_wg_keys_local, hk, hp]

/-- Witness for C6 amended at a concrete state with both files present. -/
theorem wg_keys_untouched_when_both_exist_witness :
    ensure_wg_keys_local "NEW" "NEWPUB" ⟨some "K\n", some "P\n"⟩
      = (⟨some "K\n", some "P\n"⟩ : WgKeyState) :=
  wg_keys_untouched_when_both_exist "NEW" "NEWPUB" ⟨some "K\n", some "P\n"⟩ rfl rfl

/-- C7: the fleet-readiness wait returns normally exactly when some poll in
its bounded retry sequence satisfies the policy — at least `expected`
responders under require-all, at least one otherwise (see
`pollSatisfies`) — and raises the hard error after exhausting the sequence
otherwise. -/
theorem salt_ping_wait_policy (ra : Bool) (e : Nat)
    (polls : List (Int × Option (List (String × Bool)))) :
    salt_ping_wait ra e polls =
      (if polls.any (pollSatisfies ra e) then .ok ()
       else .error "salt minions did not respond in time") := by
  induction polls with
  | nil => rfl
  | cons p rest ih =>
    simp only [salt_ping_wait, List.any_cons, ih]
    rcases Bool.eq_false_or_eq_true (pollSatisfies ra e p) with h | h <;>
      simp only [h, Bool.false_or, Bool.true_or, if_pos rfl]
    · rfl
    · rfl

/-- C8: with the earlier phases succeeding, `main` on the hub exits with an
error exactly when strict mode is set AND the hub-only phase (trust
bootstrap, reachability gate, configuration-engine run, composed as one
`try` unit) raised that error; without strict mode the run completes
successfully whatever the hub phase did. -/
theorem hub_phase_error_iff_strict (strict : Bool) (b r g : Except String Unit)
    (err : String) :
    (mainModel strict true (.ok ()) (.ok ()) (.ok ()) b r g = .error err)
      ↔ (strict = true ∧ hubPhaseBody b r g = .error err) := by
  simp only [mainModel, Except.bind, mainHubSection, if_true]
  cases h : hubPhaseBody b r g <;> cases strict <;> simp [h]

/-- C9 counterexample: a subprocess that emits no output and runs well past
the 10-second timeout is neither killed nor reported with the 124 sentinel:
`run_stream` only checks the clock after reading a line, so it blocks until
the process exits and returns the real exit code. -/
theorem run_stream_misses_timeout :
    10 < silentProc.exitTime
    ∧ run_stream (some 10) silentProc = 0
    ∧ (0 : Int) ≠ 124 :=
  ⟨by decide, rfl, by decide⟩

/-- Helper for C9: the streaming loop returns 124 as soon as some line
arrives after the timeout expired. -/
theorem runStreamLoop_killed (T : Nat) (ec : Int) (l : List (Nat × String))
    (hT : 0 < T) (hex : ∃ e ∈ l, T < e.1) :
    runStreamLoop (some T) ec l = 124 := by
  have hT0 : (T == 0) = false := by simp; omega
  induction l with
  | nil => rcases hex with ⟨e, he, _⟩; cases he
  | cons x rest ih =>
    obtain ⟨t, str⟩ := x
    by_cases hx : T < t
    · simp [runStreamLoop, timeoutTruthy, hT0, hx]
    · rcases hex with ⟨e, he, hlt⟩
      rcases List.mem_cons.mp he with h1 | h2
      · rw [h1] at hlt; exact absurd hlt (by simpa using hx)
      · simp [runStreamLoop, timeoutTruthy, hT0, hx]
        exact ih ⟨e, h2, hlt⟩

/-- Helper for C9: with every line arriving inside the timeout the loop
runs to completion and reports the process return code. -/
theorem runStreamLoop_no_kill (T : Nat) (ec : Int) (l : List (Nat × String))
    (hall : ∀ e ∈ l, e.1 ≤ T) :
    runStreamLoop (some T) ec l = ec := by
  induction l with
  | nil => rfl
  | cons x rest ih =>
    obtain ⟨t, str⟩ := x
    have ht : t ≤ T := hall (t, str) (List.mem_cons_self _ _)
    have hx : ¬ (T < t) := by omega
    simp [runStreamLoop, timeoutTruthy, hx]
    exact ih (fun e he => hall e (List.mem_cons_of_mem _ he))

/-- C9 amended: the timeout of `run_stream` is enforced only upon receipt
of an output line: if some line arrives after the timeout expired the
process is killed and 124 returned, but a process whose lines all arrive in
time is never killed — `run_stream` then waits for its exit and returns the
real exit code even when the process outlives the timeout. -/
theorem run_stream_timeout_on_output (T : Nat) (p : Proc) (hT : 0 < T) :
    ((∃ e ∈ p.outLines, T < e.1) → run_stream (some T) p = 124)
    ∧ ((∀ e ∈ p.outLines, e.1 ≤ T) → run_stream (some T) p = p.exitCode) :=
  ⟨fun hex => runStreamLoop_killed T p.exitCode p.outLines hT hex,
   fun hall => runStreamLoop_no_kill T p.exitCode p.outLines hall⟩

/-- Witness for C9 amended: a late line at 9s past a 5s timeout yields 124;
a process whose single line arrived at 2s returns its own exit code 7. -/
theorem run_stream_timeout_on_output_witness :
    run_stream (some 5) chattyProc = 124 ∧ run_stream (some 5) quietProc = 7 :=
  ⟨(run_stream_timeout_on_output 5 chattyProc (by decide)).1
      ⟨(9, "b"), by decide, by decide⟩,
   (run_stream_timeout_on_output 5 quietProc (by decide)).2 (by decide)⟩

/-- C10: `_extract_json_object` equals its specification: the parse of the
substring spanning the first `{` to the last `}` when both exist in that
order, and `none` when the text is empty, lacks a well-ordered brace pair,
or the substring fails to parse (`loads` returning `none` models the caught
parse failure); being a total function of its inputs, it raises nothing. -/
theorem extract_json_object_eq_spec {α : Type} (loads : String → Option α)
    (text : String) :
    extract_json_object loads text = extract_json_object_spec loads text := by
  unfold extract_json_object extract_json_object_spec firstBraceIdx lastBraceIdx pyFind pyRfind
  by_cases h0 : text = ""
  · subst h0; simp
  · rw [if_neg (by simpa using h0)]
    cases hf : text.data.findIdx? (fun x => x == '{') with
    | none =>
      cases hl : text.data.reverse.findIdx? (fun x => x == '}') <;> simp
    | some sn =>
      cases hl : text.data.reverse.findIdx? (fun x => x == '}') with
      | none => simp
      | some i =>
        simp only [Option.map_some']
        have hs1 : ((sn : Int) == -1) = false := by
          simp only [beq_eq_false_iff_ne, ne_eq]; omega
        have he1 : (((text.data.length - 1 - i : Nat) : Int) == -1) = false := by
          simp only [beq_eq_false_iff_ne, ne_eq]; omega
        rw [hs1, he1]
        simp only [Bool.false_or]
        by_cases hle : (text.data.length - 1 - i) ≤ sn
        · rw [if_pos (decide_eq_true (Nat.cast_le.mpr hle))]
          rw [if_neg (by omega)]
        · rw [if_neg (fun h => hle (Nat.cast_le.mp (of_decide_eq_true h)))]
          rw [if_pos (by omega)]
          simp

/-- Helper: inserting an element below a whole list puts it in front. -/
theorem insertLe_all {α : Type} (le : α → α → Bool) (x : α) (l : List α)
    (h : ∀ y ∈ l, le x y = true) : insertLe le x l = x :: l := by
  cases l with
  | nil => rfl
  | cons y ys => simp [insertLe, h y (List.mem_cons_self _ _)]

theorem pySorted_eq_self {α : Type} (le : α → α → Bool) (l : List α)
    (h : l.Pairwise (fun a b => le a b = true)) : pySorted le l = l := by
  induction l with
  | nil => rfl
  | cons x xs ih =>
    have hx : ∀ y ∈ xs, le x y = true := (List.pairwise_cons.mp h).1
    have hxs : xs.Pairwise (fun a b => le a b = true) := (List.pairwise_cons.mp h).2
    show insertLe le x (pySorted le xs) = x :: xs
    rw [ih hxs, insertLe_all le x xs hx]

theorem prune_backups_sorted (N : Nat) (hN : 0 < N) (B : List Nat)
    (hB : B.Pairwise (· < ·)) :
    prune_backups (N : Int) B =
      (if B.length < N then B else B.drop (B.length - (N - 1))) := by
  have hle : ¬ ((N : Int) ≤ 0) := by omega
  have hp : pySorted (fun a b => decide (a ≤ b)) B = B :=
    pySorted_eq_self _ B (hB.imp (fun h => decide_eq_true (Nat.le_of_lt h)))
  simp only [prune_backups, if_neg hle, hp]
  by_cases hlt : B.length < N
  · rw [if_neg (by omega), if_pos hlt]
  · rw [if_pos (by omega), if_neg hlt]
    congr 1
    omega

theorem applyRenders_backups (N : Nat) (hN : 0 < N) :
    ∀ (writes : List (Nat × String)) (c : String) (B : List Nat),
      B.Pairwise (· < ·) →
      B.length ≤ N →
      (∀ b ∈ B, ∀ t ∈ writes.map Prod.fst, b < t) →
      (writes.map Prod.fst).Pairwise (· < ·) →
      contentsChange c writes = true →
      (applyRenders (N : Int) ⟨some c, B⟩ writes).backups
        = (B ++ writes.map Prod.fst).drop (B.length + writes.length - N) := by
  intro writes
  induction writes with
  | nil =>
    intro c B hB hlen _ _ _
    simp only [applyRenders, List.length_nil, Nat.add_zero, List.map_nil,
      List.append_nil]
    rw [Nat.sub_eq_zero_of_le hlen, List.drop_zero]
  | cons w rest ih =>
    intro c B hB hlen hfresh hws hch
    obtain ⟨t, d⟩ := w
    simp only [contentsChange, Bool.and_eq_true, Bool.not_eq_true'] at hch
    obtain ⟨hcd, hchrest⟩ := hch
    have htB : ∀ b ∈ B, b < t := by
      intro b hb
      exact hfresh b hb t (by simp)
    have hmap : List.map Prod.fst ((t, d) :: rest) = t :: rest.map Prod.fst := rfl
    rw [hmap] at hws
    have hws' := List.pairwise_cons.mp hws
    have hwsrest : (rest.map Prod.fst).Pairwise (· < ·) := hws'.2
    have htrest : ∀ u ∈ rest.map Prod.fst, t < u := hws'.1
    have hNi : (0 : Int) < (N : Int) := by exact_mod_cast hN
    have hstep : (write_if_changed (N : Int) t d ⟨some c, B⟩).2
        = ⟨some d, addBackup t (prune_backups (N : Int) B)⟩ := by
      simp [write_if_changed, hcd, hNi]
    rw [show applyRenders (N : Int) ⟨some c, B⟩ ((t, d) :: rest)
          = applyRenders (N : Int) (write_if_changed (N : Int) t d ⟨some c, B⟩).2 rest from rfl,
        hstep]
    have hprune := prune_backups_sorted N hN B hB
    have hfreshAll : ∀ b ∈ B, ∀ u ∈ rest.map Prod.fst, b < u := by
      intro b hb u hu
      exact hfresh b hb u (by simp [hu])
    by_cases hsize : B.length < N
    · rw [if_pos hsize] at hprune
      have hnotin : t ∉ B := fun hmem => absurd (htB t hmem) (by omega)
      have haddb : addBackup t (prune_backups (N : Int) B) = B ++ [t] := by
        rw [hprune]
        simp only [addBackup]
        rw [if_neg hnotin]
      rw [haddb]
      have hIH := ih d (B ++ [t])
        (by
          rw [List.pairwise_append]
          refine ⟨hB, List.pairwise_singleton _ _, ?_⟩
          intro a ha b hb
          rw [List.mem_singleton.mp hb]
          exact htB a ha)
        (by simp; omega)
        (by
          intro b hb u hu
          rcases List.mem_append.mp hb with h1 | h2
          · exact hfreshAll b h1 u hu
          · rw [List.mem_singleton.mp h2]
            exact htrest u hu)
        hwsrest hchrest
      rw [hIH]
      have hLL : B ++ [t] ++ rest.map Prod.fst = B ++ (t :: rest.map Prod.fst) := by
        simp
      rw [hLL]
      congr 1
      simp only [List.length_append, List.length_cons, List.length_nil,
        List.length_map]
      try omega
    · have hBlen : B.length = N := by omega
      obtain ⟨b0, B', rfl⟩ : ∃ b0 B', B = b0 :: B' := by
        cases B with
        | nil => simp at hBlen; omega
        | cons b0 B' => exact ⟨b0, B', rfl⟩
      have hB'len : B'.length = N - 1 := by
        simp at hBlen; omega
      rw [if_neg hsize] at hprune
      have hdrop1 : (b0 :: B').drop ((b0 :: B').length - (N - 1)) = B' := by
        have : (b0 :: B').length - (N - 1) = 1 := by
          simp only [List.length_cons, hB'len]
          omega
        rw [this]
        rfl
      rw [hdrop1] at hprune
      have hdsub : ∀ b ∈ B', b ∈ b0 :: B' := fun b hb => List.mem_cons_of_mem _ hb
      have hnotin : t ∉ B' := fun hmem => absurd (htB t (hdsub t hmem)) (by omega)
      have haddb : addBackup t (prune_backups (N : Int) (b0 :: B')) = B' ++ [t] := by
        rw [hprune]
        simp only [addBackup]
        rw [if_neg hnotin]
      rw [haddb]
      have hB'PW : B'.Pairwise (· < ·) := (List.pairwise_cons.mp hB).2
      have hIH := ih d (B' ++ [t])
        (by
          rw [List.pairwise_append]
          refine ⟨hB'PW, List.pairwise_singleton _ _, ?_⟩
          intro a ha b hb
          rw [List.mem_singleton.mp hb]
          exact htB a (hdsub a ha))
        (by simp [hB'len]; omega)
        (by
          intro b hb u hu
          rcases List.mem_append.mp hb with h1 | h2
          · exact hfreshAll b (hdsub b h1) u hu
          · rw [List.mem_singleton.mp h2]
            exact htrest u hu)
        hwsrest hchrest
      rw [hIH]
      have hLL : B' ++ [t] ++ rest.map Prod.fst = B' ++ (t :: rest.map Prod.fst) := by
        simp
      rw [hLL, hmap]
      have hn1 : (b0 :: B').length + ((t, d) :: rest).length - N
          = ((B' ++ [t]).length + rest.length - N) + 1 := by
        simp only [List.length_append, List.length_cons, List.length_nil]
        omega
      rw [hn1]
      rw [show ((b0 :: B') ++ (t :: rest.map Prod.fst))
            = b0 :: (B' ++ (t :: rest.map Prod.fst)) from rfl]
      rw [List.drop_succ_cons]

/-- C3: starting with no backups, after `N + k` renders (retention cap
`N > 0`) at strictly increasing timestamps, each of which changes the file
content, exactly `N` timestamp-named backups remain, namely the newest `N`;
the `k` backups deleted are the oldest ones. -/
theorem backup_retention (N k : Nat) (hN : 0 < N) (c0 : String)
    (writes : List (Nat × String))
    (hlen : writes.length = N + k)
    (hsorted : (writes.map Prod.fst).Pairwise (· < ·))
    (hch : contentsChange c0 writes = true) :
    (applyRenders (N : Int) ⟨some c0, []⟩ writes).backups
      = (writes.map Prod.fst).drop k
    ∧ ((writes.map Prod.fst).drop k).length = N := by
  have h := applyRenders_backups N hN writes c0 [] (by simp) (by simp)
    (by intro b hb; cases hb) hsorted hch
  constructor
  · rw [h]
    simp only [List.nil_append, List.length_nil, Nat.zero_add]
    congr 1
    omega
  · simp only [List.length_drop, List.length_map]
    omega

/-- Witness for C3: cap 2, five changing renders at timestamps 1..5 leave
exactly the backups `[4, 5]`; 1, 2 and 3 (the oldest) were pruned. -/
theorem backup_retention_witness :
    (applyRenders ((2 : Nat) : Int)
        ⟨some "z", []⟩ [(1, "a"), (2, "b"), (3, "c"), (4, "d"), (5, "e")]).backups
      = [4, 5] := by
  have h := (backup_retention 2 3 (by decide) "z"
    [(1, "a"), (2, "b"), (3, "c"), (4, "d"), (5, "e")] rfl (by decide) (by decide)).1
  rw [h]
  rfl

/-- Rebuilding a string from its characters is the identity. -/
theorem stringMk_data (s : String) : String.mk s.data = s := rfl

/-- Unfolding `joinNl` on a list with at least two elements. -/
theorem joinNl_cons (l : String) (ls : List String) (h : ls ≠ []) :
    joinNl (l :: ls) = l ++ "\n" ++ joinNl ls := by
  cases ls with
  | nil => exact absurd rfl h
  | cons a as => rfl

/-- Appending one more line to a newline-join. -/
theorem joinNl_append_last (X : List String) (y : String) (hX : X ≠ []) :
    joinNl (X ++ [y]) = joinNl X ++ "\n" ++ y := by
  induction X with
  | nil => exact absurd rfl hX
  | cons a X' ih =>
    cases X' with
    | nil => rfl
    | cons b X'' =>
      rw [List.cons_append, joinNl_cons a ((b :: X'') ++ [y]) (by simp),
        joinNl_cons a (b :: X'') (by simp), ih (by simp)]
      simp [String.append_assoc]

/-- A text without carriage returns is unchanged by CRLF normalisation. -/
theorem normalizeCRLF_id (cs : List Char) (h : '\r' ∉ cs) : normalizeCRLF cs = cs := by
  induction cs with
  | nil => rfl
  | cons c rest ih =>
    cases rest with
    | nil => rfl
    | cons c2 rest2 =>
      have hc : ¬ (c = '\r' ∧ c2 = '\n') := by
        intro hcr
        exact h (by simp [hcr.1])
      show (if c = '\r' ∧ c2 = '\n' then _ else c :: normalizeCRLF (c2 :: rest2)) = _
      rw [if_neg hc]
      rw [ih (fun hmem => h (List.mem_cons_of_mem _ hmem))]

/-- The line splitter accumulates break-free characters. -/
theorem splitNlAux_clean_run (l : List Char)
    (h : ∀ ch ∈ l, ch ≠ '\n' ∧ ch ≠ '\r') (acc rest : List Char) :
    splitNlAux acc (l ++ rest) = splitNlAux (l.reverse ++ acc) rest := by
  induction l generalizing acc with
  | nil => simp
  | cons c l' ih =>
    have hc := h c (List.mem_cons_self _ _)
    have hcond : ¬ (c = '\n' ∨ c = '\r') := by
      rcases hc with ⟨h1, h2⟩
      intro hor
      rcases hor with h3 | h3 <;> [exact h1 h3; exact h2 h3]
    show (if c = '\n' ∨ c = '\r' then _ else splitNlAux (c :: acc) (l' ++ rest)) = _
    rw [if_neg hcond]
    rw [ih (fun ch hm => h ch (List.mem_cons_of_mem _ hm)) (c :: acc)]
    congr 1
    simp

/-- The line splitter emits a break-free line at its terminating `\n`. -/
theorem splitNlAux_line (l : List Char) (rest : List Char)
    (h : ∀ ch ∈ l, ch ≠ '\n' ∧ ch ≠ '\r') :
    splitNlAux [] (l ++ '\n' :: rest) = l :: splitNlAux [] rest := by
  rw [splitNlAux_clean_run l h [] ('\n' :: rest)]
  simp [splitNlAux]

/-- A newline-join of break-free lines contains no carriage return. -/
theorem joinNl_data_no_cr (ls : List String)
    (hclean : ∀ l ∈ ls, ∀ ch ∈ l.data, ch ≠ '\n' ∧ ch ≠ '\r') :
    '\r' ∉ (joinNl ls).data := by
  induction ls with
  | nil => simp [joinNl]
  | cons l ls' ih =>
    cases ls' with
    | nil =>
      show '\r' ∉ l.data
      intro hmem
      exact (hclean l (List.mem_cons_self _ _) '\r' hmem).2 rfl
    | cons b bs =>
      rw [joinNl_cons l (b :: bs) (by simp)]
      simp only [String.data_append, List.mem_append]
      intro hmem
      rcases hmem with (h1 | h2) | h3
      · exact (hclean l (List.mem_cons_self _ _) '\r' h1).2 rfl
      · simp at h2
      · exact ih (fun x hx => hclean x (List.mem_cons_of_mem _ hx)) h3

/-- Splitting inverts joining for break-free lines (character level). -/
theorem splitNlAux_joinNl (ls : List String) (hne : ls ≠ [])
    (hclean : ∀ l ∈ ls, ∀ ch ∈ l.data, ch ≠ '\n' ∧ ch ≠ '\r') :
    splitNlAux [] ((joinNl ls ++ "\n").data) = ls.map String.data := by
  induction ls with
  | nil => exact absurd rfl hne
  | cons l ls' ih =>
    cases ls' with
    | nil =>
      show splitNlAux [] ((l ++ "\n").data) = [l.data]
      rw [String.data_append]
      rw [show ("\n" : String).data = ['\n'] from rfl]
      rw [splitNlAux_line l.data [] (hclean l (List.mem_cons_self _ _))]
      rfl
    | cons b bs =>
      rw [joinNl_cons l (b :: bs) (by simp)]
      have hdata : ((l ++ "\n" ++ joinNl (b :: bs)) ++ "\n").data
          = l.data ++ '\n' :: ((joinNl (b :: bs) ++ "\n").data) := by
        simp [String.data_append]
      rw [hdata]
      rw [splitNlAux_line l.data _ (hclean l (List.mem_cons_self _ _))]
      rw [ih (by simp) (fun x hx => hclean x (List.mem_cons_of_mem _ hx))]
      rfl

/-- `splitlines` inverts `"\n".join(lines) + "\n"` when every line is
free of line breaks. -/
theorem pySplitlines_joinNl (ls : List String) (hne : ls ≠ [])
    (hclean : ∀ l ∈ ls, ∀ ch ∈ l.data, ch ≠ '\n' ∧ ch ≠ '\r') :
    pySplitlines (joinNl ls ++ "\n") = ls := by
  unfold pySplitlines
  have hnocr : '\r' ∉ (joinNl ls ++ "\n").data := by
    rw [String.data_append]
    intro hmem
    rcases List.mem_append.mp hmem with h1 | h2
    · exact joinNl_data_no_cr ls hclean h1
    · simp at h2
  rw [normalizeCRLF_id _ hnocr, splitNlAux_joinNl ls hne hclean]
  rw [List.map_map]
  have : (String.mk ∘ String.data) = id := by
    funext s
    exact stringMk_data s
  rw [this, List.map_id]

/-- `rstrip` of a text ending in one newline after a non-whitespace
character removes exactly that newline. -/
theorem rstripChars_append_newline (cs : List Char) (c : Char)
    (hc : cs.getLast? = some c) (hws : ¬ c.isWhitespace) :
    rstripChars (cs ++ ['\n']) = cs := by
  have hne : cs ≠ [] := by rintro rfl; simp at hc
  have hlast : cs.getLast hne = c := by
    have h2 := List.getLast?_eq_getLast cs hne
    rw [hc] at h2
    exact Option.some_injective _ h2.symm
  have hdecomp := List.dropLast_append_getLast hne
  rw [hlast] at hdecomp
  have hwsf : c.isWhitespace = false := by
    cases hcc : c.isWhitespace
    · rfl
    · exact absurd hcc hws
  have hnlws : ('\n' : Char).isWhitespace = true := rfl
  conv_lhs => rw [← hdecomp]
  conv_rhs => rw [← hdecomp]
  unfold rstripChars
  simp [List.reverse_append, List.dropWhile_cons, hwsf, hnlws]

/-- The last character of a newline-join is the last character of its last
(non-empty) line. -/
theorem joinNl_data_getLast (X : List String) (y : String)
    (hy : X.getLast? = some y) (hne : y.data ≠ []) :
    (joinNl X).data.getLast? = y.data.getLast? := by
  induction X with
  | nil => simp at hy
  | cons a X' ih =>
    cases X' with
    | nil =>
      simp at hy
      subst hy
      rfl
    | cons b bs =>
      have hy' : (b :: bs).getLast? = some y := by
        rw [← hy]
        exact List.getLast?_cons_cons.symm
      obtain ⟨lc, hlc⟩ : ∃ lc, y.data.getLast? = some lc := by
        cases h : y.data.getLast? with
        | some v => exact ⟨v, rfl⟩
        | none => exact absurd (List.getLast?_eq_none_iff.mp h) hne
      have hih := ih hy'
      rw [joinNl_cons a (b :: bs) (by simp)]
      rw [String.data_append]
      rw [List.getLast?_append, hih, hlc]
      rfl

/-- The composition step on a peer block ending in the keepalive line: the
trailing `rstrip` removes exactly the blank separator the block ends with,
so the rendered text is the plain newline-join plus a final newline. -/
theorem composeDesired_peerblock (L body : List String)
    (hlast : body.getLast? = some "PersistentKeepalive = 25") :
    composeDesired L (body ++ [""]) = joinNl (L ++ [""] ++ body) ++ "\n" := by
  unfold composeDesired
  have hassoc : L ++ [""] ++ (body ++ [""]) = (L ++ [""] ++ body) ++ [""] := by simp
  rw [hassoc]
  have hXne : L ++ [""] ++ body ≠ [] := by simp
  rw [joinNl_append_last _ "" hXne, String.append_empty]
  have hXlast : (L ++ [""] ++ body).getLast? = some "PersistentKeepalive = 25" := by
    rw [List.getLast?_append, hlast]
    rfl
  have hjl := joinNl_data_getLast (L ++ [""] ++ body) _ hXlast (by decide)
  have hlast5 : (joinNl (L ++ [""] ++ body)).data.getLast? = some '5' := by
    rw [hjl]
    rfl
  unfold pyRstrip
  rw [String.data_append, show ("\n" : String).data = ['\n'] from rfl]
  rw [rstripChars_append_newline _ '5' hlast5 (by decide)]

/-- Every line the splitter emits is free of line-break characters. -/
theorem splitNlAux_clean (cs : List Char) :
    ∀ acc, (∀ ch ∈ acc, ch ≠ '\n' ∧ ch ≠ '\r') →
    ∀ l ∈ splitNlAux acc cs, ∀ ch ∈ l, ch ≠ '\n' ∧ ch ≠ '\r' := by
  induction cs with
  | nil =>
    intro acc hacc l hl ch hch
    simp only [splitNlAux] at hl
    by_cases hae : acc.isEmpty
    · rw [if_pos hae] at hl
      cases hl
    · rw [if_neg hae] at hl
      rw [List.mem_singleton.mp hl] at hch
      exact hacc ch (List.mem_reverse.mp hch)
  | cons c rest ih =>
    intro acc hacc l hl ch hch
    rw [show splitNlAux acc (c :: rest)
        = (if c = '\n' ∨ c = '\r' then acc.reverse :: splitNlAux [] rest
           else splitNlAux (c :: acc) rest) from rfl] at hl
    by_cases hc : c = '\n' ∨ c = '\r'
    · rw [if_pos hc] at hl
      rcases List.mem_cons.mp hl with h1 | h2
      · rw [h1] at hch
        exact hacc ch (List.mem_reverse.mp hch)
      · exact ih [] (by simp) l h2 ch hch
    · rw [if_neg hc] at hl
      push_neg at hc
      refine ih (c :: acc) ?_ l hl ch hch
      intro x hx
      rcases List.mem_cons.mp hx with h1 | h2
      · rw [h1]
        exact hc
      · exact hacc x h2

/-- Every line of `splitlines` is free of line-break characters. -/
theorem pySplitlines_clean (s : String) :
    ∀ l ∈ pySplitlines s, ∀ ch ∈ l.data, ch ≠ '\n' ∧ ch ≠ '\r' := by
  intro l hl ch hch
  unfold pySplitlines at hl
  rcases List.mem_map.mp hl with ⟨cl, hcl, hmk⟩
  rw [← hmk] at hch
  exact splitNlAux_clean _ [] (by simp) cl hcl ch hch

/-- Interface-block lines are free of line-break characters. -/
theorem read_iface_block_clean (content : String) :
    ∀ l ∈ read_iface_block content, ∀ ch ∈ l.data, ch ≠ '\n' ∧ ch ≠ '\r' := by
  intro l hl
  exact pySplitlines_clean content l ((List.takeWhile_prefix _).subset hl)

/-- C2 amended: the interface section is preserved line-for-line but NOT
byte-for-byte: rendering over any pre-existing config emits a file whose
pre-marker lines are exactly the pre-existing pre-marker lines plus one
appended blank line.  `body` ranges over the peer block the renderer
emits — both `hubPeerLines` (when non-empty) and `spokePeerLines` produce a
block headed by `[Peer]`, ending in the keepalive line followed by a blank
line, with break-free lines — exactly the hypotheses used here. -/
theorem iface_block_preserved (content : String) (body : List String)
    (hhead : body.head? = some "[Peer]")
    (hlast : body.getLast? = some "PersistentKeepalive = 25")
    (hclean : ∀ l ∈ body, ∀ ch ∈ l.data, ch ≠ '\n' ∧ ch ≠ '\r') :
    read_iface_block (composeDesired (read_iface_block content) (body ++ [""]))
      = read_iface_block content ++ [""] := by
  obtain ⟨bh, bt, rfl⟩ : ∃ bh bt, body = bh :: bt := by
    cases body with
    | nil => simp at hhead
    | cons bh bt => exact ⟨bh, bt, rfl⟩
  have hbh : bh = "[Peer]" := by simpa using hhead
  subst hbh
  have hLclean := read_iface_block_clean content
  rw [composeDesired_peerblock (read_iface_block content) _ hlast]
  rw [show read_iface_block
        (joinNl (read_iface_block content ++ [""] ++ ("[Peer]" :: bt)) ++ "\n")
      = (pySplitlines
          (joinNl (read_iface_block content ++ [""] ++ ("[Peer]" :: bt)) ++ "\n")).takeWhile
          (fun l => !(isMarker l)) from rfl]
  rw [pySplitlines_joinNl _ (by simp) (by
    intro l hl ch hch
    rcases List.mem_append.mp hl with h12 | h3
    · rcases List.mem_append.mp h12 with h1 | h2
      · exact hLclean l h1 ch hch
      · rw [List.mem_singleton.mp h2] at hch
        cases hch
    · exact hclean l h3 ch hch)]
  have hLsat : ∀ l ∈ read_iface_block content, (!(isMarker l)) = true := by
    intro l hl
    unfold read_iface_block at hl
    exact @List.mem_takeWhile_imp String (fun l => !(isMarker l))
      (pySplitlines content) l hl
  rw [List.append_assoc, List.takeWhile_append]
  rw [if_pos (by rw [List.takeWhile_eq_self_iff.mpr hLsat])]
  congr 1

/-- Witness for C2 amended at the concrete `c2conf` file and a one-stanza
peer block. -/
theorem iface_block_preserved_witness :
    read_iface_block (composeDesired (read_iface_block c2conf)
        (["[Peer]", "PublicKey = X", "PersistentKeepalive = 25"] ++ [""]))
      = read_iface_block c2conf ++ [""] :=
  iface_block_preserved c2conf
    ["[Peer]", "PublicKey = X", "PersistentKeepalive = 25"] rfl rfl (by decide)
